import Mathlib

/-!
Verification development for the raster-image processing engine
(`src/core/ppm.rs`, `src/core/ccl.rs`, `src/core/operations.rs`).

Shallow embedding conventions:
* `u8` / `u32` / `usize` / `u64` values are modelled as `Nat`; where the Rust
  code can wrap (the `u32` arithmetic in `get_index`) the reduction
  `% 2 ^ 32` is written explicitly.
* `i32` values are modelled as `Int`; the cast `i32 as u32` is `toU32`.
* `HashMap` is modelled as an insertion-ordered association list (Rust's
  iteration order is unspecified; list order stands in for it, and no theorem
  below depends on the order of tied entries).
* `BTreeMap` / `BTreeSet` are association lists / lists kept sorted by key in
  strictly ascending order, so that `iter()` enumerates keys in ascending
  order, `iter().next()` is the minimum and `iter().last()` the maximum.
* `f32` arithmetic that stays exact on the values the claims exercise is
  modelled over `ℚ` (resize ratios, the CCL tolerance) or over `ℝ`
  (logarithms and powers in the tonal transforms); f32 rounding error is not
  modelled.
* Out-of-bounds `Vec` indexing panics in Rust; reads are modelled with
  `getD _ 0` and every theorem below only exercises in-bounds reads.
-/

set_option maxRecDepth 4000

namespace ImageViewer

/- `PIXEL_SIZE`, channel indices and `BLACK` from `src/core/mod.rs` and
`src/core/color.rs`.  A `PixelBytes<u8>` value `[r, g, b]` is a `List Nat`
of length three. -/

def PIXEL_SIZE : Nat := 3

def R_CH : Nat := 0

def G_CH : Nat := 1

def B_CH : Nat := 2

abbrev PixelBytes := List Nat

def BLACK : PixelBytes := [0, 0, 0]

/-- Association-list lookup, modelling `HashMap::get` / `BTreeMap::get`. -/
def mapGet {κ α : Type} [DecidableEq κ] (m : List (κ × α)) (k : κ) :
    Option α :=
  match m with
  | [] => none
  | kv :: rest => if kv.1 = k then some kv.2 else mapGet rest k

/-- Replace the value stored at an existing key, keeping its position
(`*get_mut(k) = v`); leaves the list unchanged when the key is absent. -/
def mapSet {κ α : Type} [DecidableEq κ] (m : List (κ × α)) (k : κ) (v : α) :
    List (κ × α) :=
  match m with
  | [] => []
  | kv :: rest => if kv.1 = k then (k, v) :: rest else kv :: mapSet rest k v

/-- Remove a key (`HashMap::remove` / `BTreeMap::remove`). -/
def mapRemove {κ α : Type} [DecidableEq κ] (m : List (κ × α)) (k : κ) :
    List (κ × α) :=
  match m with
  | [] => []
  | kv :: rest => if kv.1 = k then rest else kv :: mapRemove rest k

/-- `HashMap::insert`: replaces the value if the key is present, otherwise
appends the new entry (insertion order stands in for hash order). -/
def hashInsert {κ α : Type} [DecidableEq κ] (m : List (κ × α)) (k : κ)
    (v : α) : List (κ × α) :=
  if (mapGet m k).isSome then mapSet m k v else m ++ [(k, v)]

/-- `BTreeMap<u8/u64,_>::insert` over `Nat` keys: replaces the value if the
key is present, otherwise inserts keeping the keys sorted ascending. -/
def btreeInsert {α : Type} (m : List (Nat × α)) (k : Nat) (v : α) :
    List (Nat × α) :=
  match m with
  | [] => [(k, v)]
  | kv :: rest =>
    if k < kv.1 then (k, v) :: kv :: rest
    else if k = kv.1 then (k, v) :: rest
    else kv :: btreeInsert rest k v

/-- `BTreeSet<u64>::insert` over a sorted ascending duplicate-free list. -/
def setInsert (k : Nat) (s : List Nat) : List Nat :=
  match s with
  | [] => [k]
  | x :: rest =>
    if k < x then k :: x :: rest
    else if k = x then x :: rest
    else x :: setInsert k rest

/-- `BTreeSet::extend(other.iter())`: insert every element of `t` into `s`. -/
def setExtend (s t : List Nat) : List Nat :=
  t.foldl (fun acc x => setInsert x acc) s

/- The `PpmHeader` and `PpmImage` structures from `src/core/ppm.rs`. -/

inductive PpmType
  | P1 | P2 | P3 | P4 | P5 | P6 | P0
deriving DecidableEq

structure PpmHeader where
  ppm_type : PpmType
  width : Nat
  height : Nat
  max_value : Nat
deriving DecidableEq

def PpmHeader.new (width height : Nat) : PpmHeader :=
  { ppm_type := .P6, width := width, height := height, max_value := 0 }

structure PpmImage where
  header : PpmHeader
  pixels : List Nat
  histogram : List (PixelBytes × Nat)
  rgb_components_used : List (Nat × Nat)
  keep_histogram_updated : Bool
deriving DecidableEq

namespace PpmImage

/-- `PpmImage::new`: an all-zero buffer of `3·h·w` bytes, with the histogram
seeded by `histogram.insert(BLACK, capacity)` — note the source seeds the
count with the byte capacity `3·h·w`, not the pixel count `h·w`. -/
def new (width height : Nat) : PpmImage :=
  let capacity := PIXEL_SIZE * (height * width)
  { header := PpmHeader.new width height
    pixels := List.replicate capacity 0
    histogram := [(BLACK, capacity)]
    rgb_components_used := []
    keep_histogram_updated := false }

def width (img : PpmImage) : Nat := img.header.width

def height (img : PpmImage) : Nat := img.header.height

/-- `get_key_with_max_value` from `src/core/mod.rs`:
`iter().max_by(|a, b| a.1.cmp(&b.1))`, which keeps the last maximal entry in
iteration order; `unwrap` panics on an empty map (never reached — the
fallback `BLACK` here is arbitrary). -/
def get_key_with_max_value (m : List (PixelBytes × Nat)) : PixelBytes :=
  match m with
  | [] => BLACK
  | kv :: rest =>
    (rest.foldl (fun best x => if best.2 ≤ x.2 then x else best) kv).1

def get_background (img : PpmImage) : PixelBytes :=
  get_key_with_max_value img.histogram

/-- `PpmImage::max_value`: the last (largest) key of the sorted
`rgb_components_used` map, or `u8::MAX = 255` when the map is empty. -/
def max_value (img : PpmImage) : Nat :=
  match img.rgb_components_used.getLast? with
  | some kv => kv.1
  | none => 255

/-- Decrement the usage count of one channel value, removing it at zero;
this is the body of the `for ch in R_CH..B_CH` loop in `remove_from_hist`. -/
def decComponent (m : List (Nat × Nat)) (v : Nat) : List (Nat × Nat) :=
  match mapGet m v with
  | none => m
  | some c => if c - 1 = 0 then mapRemove m v else mapSet m v (c - 1)

/-- `PpmImage::remove_from_hist`.  Everything happens inside
`if let Some(count) = histogram.get_mut(rgb)`; the channel loop runs over
`R_CH..B_CH`, i.e. channels 0 and 1 only — the blue channel's usage count is
never decremented (faithful to the source). -/
def remove_from_hist (img : PpmImage) (rgb : PixelBytes) : PpmImage :=
  match mapGet img.histogram rgb with
  | none => img
  | some count =>
    let hist :=
      if count - 1 = 0 then mapRemove img.histogram rgb
      else mapSet img.histogram rgb (count - 1)
    let used :=
      decComponent (decComponent img.rgb_components_used (rgb.getD R_CH 0))
        (rgb.getD G_CH 0)
    { img with histogram := hist, rgb_components_used := used }

/-- Increment the usage count of one channel value when already present
(the `if let Some(value_count)` body in `add_to_hist`); absent values are
left untouched on this path. -/
def incComponent (m : List (Nat × Nat)) (v : Nat) : List (Nat × Nat) :=
  match mapGet m v with
  | none => m
  | some c => mapSet m v (c + 1)

/-- `PpmImage::add_to_hist`.  When the pixel value is already in the
histogram only channels 0 and 1 (`R_CH..B_CH`) are incremented, and only if
already present; when the pixel value is new, `BTreeMap::insert` stores 1
for each of its channel values, overwriting any previous count (faithful to
the source).  The `try_into` failure branch is unreachable for length-3
pixels and is modelled as a no-op on the maps. -/
def add_to_hist (img : PpmImage) (rgb : PixelBytes) : PpmImage :=
  match mapGet img.histogram rgb with
  | some count =>
    let hist := mapSet img.histogram rgb (count + 1)
    let used :=
      incComponent (incComponent img.rgb_components_used (rgb.getD R_CH 0))
        (rgb.getD G_CH 0)
    { img with histogram := hist, rgb_components_used := used }
  | none =>
    if rgb.length = PIXEL_SIZE then
      let hist := hashInsert img.histogram rgb 1
      let used :=
        btreeInsert
          (btreeInsert (btreeInsert img.rgb_components_used (rgb.getD R_CH 0) 1)
            (rgb.getD G_CH 0) 1)
          (rgb.getD B_CH 0) 1
      { img with histogram := hist, rgb_components_used := used }
    else img

/-- `PpmImage::set_pixel`.  Reads the three bytes being overwritten, removes
them from the statistics, writes the new bytes, and adds the new pixel to
the statistics.  Note it never consults `keep_histogram_updated`.  The
caller-side `*index += PIXEL_SIZE` is folded into the calling loops. -/
def set_pixel (img : PpmImage) (index : Nat) (pixel : PixelBytes) :
    PpmImage :=
  let removed_pixel :=
    [img.pixels.getD (index + R_CH) 0,
     img.pixels.getD (index + G_CH) 0,
     img.pixels.getD (index + B_CH) 0]
  let img1 := remove_from_hist img removed_pixel
  let written :=
    ((img1.pixels.set (index + R_CH) (pixel.getD R_CH 0)).set
      (index + G_CH) (pixel.getD G_CH 0)).set
      (index + B_CH) (pixel.getD B_CH 0)
  add_to_hist { img1 with pixels := written } pixel

end PpmImage

/-- `get_index` from `src/core/ppm.rs`: `x + y * w` computed in wrapping
`u32` arithmetic, then multiplied by `PIXEL_SIZE` as `usize`. -/
def get_index (x y w : Nat) : Nat :=
  PIXEL_SIZE * ((x + y * w) % 2 ^ 32)

namespace PpmImage

def set_pixel_by_coord (img : PpmImage) (x y : Nat) (pixel : PixelBytes) :
    PpmImage :=
  img.set_pixel (get_index x y img.width) pixel

/-- `PpmImage::get_bytes_at`: the three bytes starting at `index`. -/
def get_bytes_at (img : PpmImage) (index : Nat) : PixelBytes :=
  [img.pixels.getD index 0,
   img.pixels.getD (index + 1) 0,
   img.pixels.getD (index + 2) 0]

def get_pixel_at (img : PpmImage) (index : Nat) : PixelBytes :=
  img.get_bytes_at (index * PIXEL_SIZE)

/-- `PpmImage::get_pixel_by_coord`: computes the linear byte index and
returns the pixel when `index < pixels.len()` — the check is on the linear
index, not on `x` and `y` separately. -/
def get_pixel_by_coord (img : PpmImage) (x y : Nat) : Option PixelBytes :=
  let index := get_index x y img.width
  if index < img.pixels.length then some (img.get_bytes_at index) else none

end PpmImage

/- Connected-component labeling, `src/core/ccl.rs`. -/

/-- `UNLABELED = 0`: background / unlabeled pixels. -/
def UNLABELED : Nat := 0

inductive Connectivity
  | EIGHT | FOUR | NOS
deriving DecidableEq

/-- The direction constants of `ccl.rs` and the shift list each connectivity
mode pushes, in push order. -/
def shiftsFor : Connectivity → List (Int × Int)
  | .EIGHT => [(-1, 0), (-1, -1), (0, -1), (1, -1)]
  | .FOUR => [(-1, 0), (0, -1)]
  | .NOS =>
    [(0, -1), (1, -1), (1, 0), (1, 1), (0, 1), (-1, 1), (-1, 0), (-1, -1)]

/-- `i32 as u32`. -/
def toU32 (z : Int) : Nat := (z % 2 ^ 32).toNat

/-- `get_valid_neighbors`.  A shifted coordinate is kept when
`n.0 >= 0 && (n.0 as u32) < width && n.1 >= 1 && (n.1 as u32) < height` —
the `n.1 >= 1` test is exactly what the source writes (its `y` lower bound
is 1, not 0). -/
def get_valid_neighbors (x y : Int) (img : PpmImage) (c_type : Connectivity) :
    List (Nat × Nat) :=
  (shiftsFor c_type).foldl
    (fun acc shift =>
      let nx := x + shift.1
      let ny := y + shift.2
      if 0 ≤ nx ∧ toU32 nx < img.width ∧ 1 ≤ ny ∧ toU32 ny < img.height then
        acc ++ [(toU32 nx, toU32 ny)]
      else acc)
    []

/-- `REDMEAN_MAX = 764.834` from `src/core/color.rs`. -/
def REDMEAN_MAX : ℚ := 764834 / 1000

/-- The squared, unnormalized redmean quantity of `redmean_distance`:
`(2 + r̄/256)·dR² + 4·dG² + (2 + (255 − r̄)/256)·dB²` with
`r̄ = (R₁ + R₂)/2`. -/
def redmean_dist_sq (p q : PixelBytes) : ℚ :=
  let r : ℚ := (1 / 2) * ((p.getD R_CH 0 : ℚ) + (q.getD R_CH 0 : ℚ))
  let d_r : ℚ := ((p.getD R_CH 0 : Int) - (q.getD R_CH 0 : Int)).natAbs
  let d_g : ℚ := ((p.getD G_CH 0 : Int) - (q.getD G_CH 0 : Int)).natAbs
  let d_b : ℚ := ((p.getD B_CH 0 : Int) - (q.getD B_CH 0 : Int)).natAbs
  (2 + r / 256) * d_r ^ 2 + 4 * d_g ^ 2 + (2 + (255 - r) / 256) * d_b ^ 2

/-- `is_neighbor_equivalent`.  At `1 ≤ tolerance` the source compares the
pixels exactly.  Below 1 it tests
`sqrt(c²) / REDMEAN_MAX ≤ 1 − tolerance`; since both sides are then
nonnegative this is equivalent to `c² ≤ ((1 − tolerance)·REDMEAN_MAX)²`,
which is the exact (square-root-free) form used here so the test stays
decidable over `ℚ`. -/
def is_neighbor_equivalent (pixel neighbor_pixel : PixelBytes)
    (tolerance : ℚ) : Bool :=
  if 1 ≤ tolerance then pixel == neighbor_pixel
  else
    decide (redmean_dist_sq pixel neighbor_pixel ≤
      ((1 - tolerance) * REDMEAN_MAX) ^ 2)

/-- `to_1d!(x, y, width)`. -/
def to_1d (x y w : Nat) : Nat := x + y * w

/-- The mutable state of `ccl`'s first pass: the label array, the
`linked_labels` map (label → sorted equivalence set) and `cur_label`. -/
structure CclState where
  labels : List Nat
  linked : List (Nat × List Nat)
  cur : Nat
deriving DecidableEq

/-- One iteration of `ccl`'s first pass at pixel `(x, y)`. -/
def cclVisit (img : PpmImage) (bg_color : PixelBytes) (tolerance : ℚ)
    (c_type : Connectivity) (st : CclState) (x y : Nat) : CclState :=
  let pixel := (img.get_pixel_by_coord x y).getD BLACK
  if pixel = bg_color then st
  else
    let possible_neighbors := get_valid_neighbors x y img c_type
    -- collect `valid_neighbors` (as a count) and the sorted set of
    -- `neighbor_labels`: a possible neighbor becomes valid exactly when it
    -- is equivalent and already labeled
    let scan :=
      possible_neighbors.foldl
        (fun (acc : Nat × List Nat) pn =>
          let neighbor_pixel :=
            (img.get_pixel_by_coord pn.1 pn.2).getD BLACK
          if is_neighbor_equivalent pixel neighbor_pixel tolerance then
            let neighbor_label := st.labels.getD (to_1d pn.1 pn.2 img.width) 0
            if neighbor_label ≠ UNLABELED then
              (acc.1 + 1, setInsert neighbor_label acc.2)
            else acc
          else acc)
        (0, [])
    if scan.1 = 0 then
      let cur := st.cur + 1
      { labels := st.labels.set (to_1d x y img.width) cur
        linked := hashInsert st.linked cur [cur]
        cur := cur }
    else
      let neighbor_labels := scan.2
      -- `neighbor_labels.iter().next().unwrap()`: the smallest label
      let assigned := neighbor_labels.headD 0
      -- `for label in neighbor_labels: linked_labels[label].extend(set)` —
      -- each member's stored set absorbs the current merge set only
      let linked :=
        neighbor_labels.foldl
          (fun lk label =>
            match mapGet lk label with
            | some linked_set => mapSet lk label (setExtend linked_set neighbor_labels)
            | none => lk)
          st.linked
      { labels := st.labels.set (to_1d x y img.width) assigned
        linked := linked
        cur := st.cur }

/-- Second pass at pixel `(x, y)`: a labeled pixel is replaced by the first
(smallest) element of its stored linked set. -/
def cclRelabel (img : PpmImage) (st : CclState) (labels : List Nat)
    (x y : Nat) : List Nat :=
  let current_label := labels.getD (to_1d x y img.width) 0
  if current_label ≠ UNLABELED then
    labels.set (to_1d x y img.width)
      (((mapGet st.linked current_label).getD []).headD 0)
  else labels

/-- `ccl`: the two raster-order passes (`for y { for x { … } }`), returning
the label array and `cur_label as usize`. -/
def ccl (img : PpmImage) (c_type : Connectivity) (tolerance : ℚ) :
    List Nat × Nat :=
  let bg_color := img.get_background
  let init : CclState :=
    { labels := List.replicate (img.width * img.height) UNLABELED
      linked := []
      cur := UNLABELED + 1 }
  let st :=
    (List.range img.height).foldl
      (fun s y =>
        (List.range img.width).foldl
          (fun s' x => cclVisit img bg_color tolerance c_type s' x y) s)
      init
  let labels :=
    (List.range img.height).foldl
      (fun ls y =>
        (List.range img.width).foldl
          (fun ls' x => cclRelabel img st ls' x y) ls)
      st.labels
  (labels, st.cur)

/- Operations, `src/core/operations.rs`.  The `f32` arithmetic of the
resampling paths is modelled exactly over `ℚ`, the transcendental tonal
transforms over `ℝ`; f32 rounding error is not modelled. -/

inductive ResizeAlgorithm
  | NearestNeighbor | BilinearInterpolation
deriving DecidableEq

/-- `clamp_color`: saturate a color value at `u8::MAX`. -/
def clamp_color (num : Nat) : Nat :=
  if 255 < num then 255 else num

/-- `f32::round` (round half away from zero) on the exact rational model. -/
def rustRoundQ (q : ℚ) : Int :=
  if 0 ≤ q then ⌊q + 1 / 2⌋ else -⌊-q + 1 / 2⌋

/-- `f32::round` (round half away from zero) on the real model. -/
noncomputable def rustRoundR (x : ℝ) : Int :=
  if 0 ≤ x then ⌊x + 1 / 2⌋ else -⌊-x + 1 / 2⌋

/-- `log_transform_safe`: `c * (pixel + 1).log(b)`, saturated at 255, else
rounded; the `as u8` cast saturates negatives at 0 (`Int.toNat`). -/
noncomputable def log_transform_safe (pixel : Nat) (c b : ℝ) : Nat :=
  let new_value := c * Real.logb b ((pixel : ℝ) + 1)
  if 255 < new_value then 255 else (rustRoundR new_value).toNat

/-- `gamma_transform_safe`: `255 * (pixel/255) ^ gamma_correction`; the `_c`
argument is accepted and ignored, as in the source. -/
noncomputable def gamma_transform_safe (pixel : Nat)
    (gamma_correction : ℝ) ( _c : ℝ) : Nat :=
  let new_value : ℝ := 255 * (((pixel : ℝ)) / 255) ^ gamma_correction
  if 255 < new_value then 255 else (rustRoundR new_value).toNat

/-- The shared write loop of `gamma_transform` and `log_transform`: both
iterate `i` over `0..w*h`, read `get_pixel_at(i)`, transform each channel
with the same per-channel function and `set_pixel` it into a fresh image at
the running `pixel_index = 3·i`. -/
def transform_pixels (img : PpmImage) (f : Nat → Nat) : PpmImage :=
  (List.range (img.width * img.height)).foldl
    (fun acc i =>
      let rgb := img.get_pixel_at i
      acc.set_pixel (PIXEL_SIZE * i)
        [f (rgb.getD R_CH 0), f (rgb.getD G_CH 0), f (rgb.getD B_CH 0)])
    (PpmImage.new img.width img.height)

/-- `gamma_transform`: `c` defaults to 1.0, `gamma_correction = 1/gamma`. -/
noncomputable def gamma_transform (ppm : PpmImage) (gamma : ℝ)
    (c_value : Option ℝ) : Except String PpmImage :=
  let c := c_value.getD 1
  let gamma_correction := 1 / gamma
  .ok (transform_pixels ppm (fun p => gamma_transform_safe p gamma_correction c))

/-- `log_transform`: `c` defaults to `255 / (1 + ppm.max_value()).log(10)` —
note the source consults the `max_value()` accessor (largest used channel
value, or 255 on an empty usage map), not the header's declared
`max_value` — and the base defaults to 10. -/
noncomputable def log_transform (ppm : PpmImage) (c_value : Option ℝ)
    (base_value : Option ℝ) : Except String PpmImage :=
  let c := c_value.getD (255 / Real.logb 10 (1 + (ppm.max_value : ℝ)))
  let b := base_value.getD 10
  .ok (transform_pixels ppm (fun p => log_transform_safe p c b))

/-- `bilinear_interpolation::get_pixel_as_float`: casts the `i32`
coordinates to `u32` and looks the pixel up by coordinate, falling back to
black when the lookup fails. -/
def get_pixel_as_float (img : PpmImage) (x y : Int) : Nat × Nat × Nat :=
  match img.get_pixel_by_coord (toU32 x) (toU32 y) with
  | some pixel => (pixel.getD R_CH 0, pixel.getD G_CH 0, pixel.getD B_CH 0)
  | none => (0, 0, 0)

/-- `lerp`. -/
def lerp (s e t : ℚ) : ℚ := s + (e - s) * t

/-- `blerp`. -/
def blerp (xa xb ya yb tx ty : ℚ) : ℚ :=
  lerp (lerp xa xb tx) (lerp ya yb tx) ty

/-- `bilinear_interpolation` (exact rational model of the f32 loop). -/
def bilinear_interpolation (img : PpmImage) (width height : Nat) :
    Except String PpmImage :=
  let fcur_width : ℚ := img.width
  let fcur_height : ℚ := img.height
  let fnew_width : ℚ := width
  let fnew_height : ℚ := height
  .ok ((List.range height).foldl
    (fun acc0 (y : Nat) =>
      (List.range width).foldl
        (fun acc (x : Nat) =>
          let gx := (x : ℚ) / fnew_width * (fcur_width - 1)
          let gy := (y : ℚ) / fnew_height * (fcur_height - 1)
          -- `gx as i32` truncates; `gx` and `gy` are nonnegative here
          let gxi : Int := ⌊gx⌋
          let gyi : Int := ⌊gy⌋
          let a := get_pixel_as_float img gxi gyi
          let b := get_pixel_as_float img (gxi + 1) gyi
          let c := get_pixel_as_float img gxi (gyi + 1)
          let d := get_pixel_as_float img (gxi + 1) (gyi + 1)
          let tx := gx - (gxi : ℚ)
          let ty := gy - (gyi : ℚ)
          let fr := blerp a.1 b.1 c.1 d.1 tx ty
          let fg := blerp a.2.1 b.2.1 c.2.1 d.2.1 tx ty
          let fb := blerp a.2.2 b.2.2 c.2.2 d.2.2 tx ty
          let r := clamp_color (rustRoundQ fr).toNat
          let g := clamp_color (rustRoundQ fg).toNat
          let bl := clamp_color (rustRoundQ fb).toNat
          acc.set_pixel_by_coord x y [r, g, bl])
        acc0)
    (PpmImage.new width height))

/-- `nearest_neighbor` (exact rational model of the f32 ratios). -/
def nearest_neighbor (img : PpmImage) (width height : Nat) :
    Except String PpmImage :=
  let x_ratio : ℚ := (img.width : ℚ) / (width : ℚ)
  let y_ratio : ℚ := (img.height : ℚ) / (height : ℚ)
  .ok ((List.range height).foldl
    (fun acc0 (i : Nat) =>
      (List.range width).foldl
        (fun acc (j : Nat) =>
          let px : ℚ := ⌊(j : ℚ) * x_ratio⌋
          let py : ℚ := ⌊(i : ℚ) * y_ratio⌋
          let pixel := img.get_pixel_at (⌊py * (img.width : ℚ) + px⌋).toNat
          acc.set_pixel_by_coord j i pixel)
        acc0)
    (PpmImage.new width height))

/-- `resize`: the equal-dimensions early return (`Ok(image.clone())`) comes
BEFORE the zero-dimension check, then the algorithm dispatch (default
nearest-neighbor). -/
def resize (image : PpmImage) (width height : Nat)
    (resize_algo : Option ResizeAlgorithm) : Except String PpmImage :=
  let resize_algorithm := resize_algo.getD .NearestNeighbor
  if image.width = width ∧ image.height = height then .ok image
  else if width = 0 ∨ height = 0 then
    .error "The image cannot have height or width be zero."
  else
    match resize_algorithm with
    | .NearestNeighbor => nearest_neighbor image width height
    | .BilinearInterpolation => bilinear_interpolation image width height

/-- `impl PartialEq for PpmHeader`: only height and width take part. -/
def ppmHeaderEq (a b : PpmHeader) : Bool :=
  a.height == b.height && a.width == b.width

/-- `impl PartialEq for PpmImage`: header equality (height and width), then
buffer length, then bytewise comparison with early exit — the early exit is
equivalent to `∀ i < len`. -/
def ppmImageEq (a b : PpmImage) : Bool :=
  if ppmHeaderEq a.header b.header then
    if a.pixels.length == b.pixels.length then
      (List.range a.pixels.length).all
        (fun i => a.pixels.getD i 0 == b.pixels.getD i 0)
    else false
  else false

/- Concrete images used to evaluate the code at failing inputs.  All are
built through `PpmImage.new` and `set_pixel` / `set_pixel_by_coord`, exactly
as a caller of the engine would build them. -/

/-- A 3×3 image: region A of color `[1,1,1]` at `(0,0)` and `(1,0)`
(two horizontally adjacent pixels in the top row), region B of color
`[2,2,2]` at `(1,2)`, and the remaining six pixels black — black is the
most frequent (background) color and the two regions are disjoint under
every connectivity mode. -/
def imgC1 : PpmImage :=
  (((PpmImage.new 3 3).set_pixel_by_coord 0 0 [1, 1, 1]).set_pixel_by_coord
      1 0 [1, 1, 1]).set_pixel_by_coord 1 2 [2, 2, 2]

/-- A 6×4 image whose ten foreground pixels (color `[1,1,1]`) form one
4-connected region shaped so that the first pass creates provisional labels
2, 3 and 4, merges `{3,4}` at `(5,2)` and then `{2,3}` at `(3,3)`; the
remaining fourteen pixels are black (the background). -/
def imgC2 : PpmImage :=
  [(1, 1), (3, 1), (5, 1), (1, 2), (3, 2), (4, 2), (5, 2), (1, 3), (2, 3),
      (3, 3)].foldl
    (fun i c => i.set_pixel_by_coord c.1 c.2 [1, 1, 1])
    (PpmImage.new 6 4)

/-- A fresh 1×1 image with statistics maintenance enabled, after one
`set_pixel` replacing the black pixel by `[1,2,3]`. -/
def imgC3 : PpmImage :=
  ({ PpmImage.new 1 1 with keep_histogram_updated := true }).set_pixel 0
    [1, 2, 3]

/-- The image `imgC3` after a second `set_pixel` replacing `[1,2,3]` by
`[4,5,6]`. -/
def imgC3b : PpmImage := imgC3.set_pixel 0 [4, 5, 6]

/-- A fresh 1×1 image, whose `keep_histogram_updated` flag is `false` (the
constructor's default), and the same image after one `set_pixel`. -/
def imgC4pre : PpmImage := PpmImage.new 1 1

def imgC4 : PpmImage := imgC4pre.set_pixel 0 [1, 2, 3]

/-- A 1×2 image (1 pixel wide, 2 tall) whose bottom pixel `(0,1)` is
`[200,0,0]` and whose top pixel is black. -/
def imgC5 : PpmImage :=
  (PpmImage.new 1 2).set_pixel_by_coord 0 1 [200, 0, 0]

/-- Number of pixels of `img` (by raster index) equal to `p`. -/
def count_pixel_occurrences (img : PpmImage) (p : PixelBytes) : Nat :=
  ((List.range (img.width * img.height)).filter
      (fun i => img.get_pixel_at i = p)).length

/-- Number of channel slots (bytes) of `img` holding the value `v`. -/
def count_channel_slots (img : PpmImage) (v : Nat) : Nat :=
  (img.pixels.filter (fun b => b = v)).length

/-- C1: refuted on the code — evaluation at a failing input.  `imgC1` has
two disjoint regions of distinct colors against the most frequent black
background, yet at tolerance 1.0 `ccl` yields THREE non-background labels
(2, 3 and 4) under every connectivity mode: because `get_valid_neighbors`
requires a neighbor's `y ≥ 1`, pixel `(1,0)` never sees its west neighbor
`(0,0)` and the top-row region is split.  The returned count is 4, which
matches neither the 2 labels the claim promises nor the 3 distinct
non-background canonical labels actually present. -/
theorem ccl_row_zero_neighbors_lost :
    imgC1.get_background = BLACK ∧
    imgC1.get_pixel_by_coord 0 0 = some [1, 1, 1] ∧
    imgC1.get_pixel_by_coord 1 0 = some [1, 1, 1] ∧
    ccl imgC1 .FOUR 1 = ([2, 3, 0, 0, 0, 0, 0, 4, 0], 4) ∧
    ccl imgC1 .EIGHT 1 = ([2, 3, 0, 0, 0, 0, 0, 4, 0], 4) ∧
    ccl imgC1 .NOS 1 = ([2, 3, 0, 0, 0, 0, 0, 4, 0], 4) := by
  decide

/-- C2: refuted on the code — evaluation at a failing input.  On `imgC2`
(one single 4-connected region) the first pass merges `{3,4}` and later
`{2,3}`, so provisional labels 4 and 2 are connected by a chain of merges;
but `linked_labels[4]` is only extended by the sets 4 itself appears in, so
it ends as `{3,4}` and the second pass maps the pixel labeled 4 (at
`(5,1)`) to canonical 3 while every pixel labeled 2 or 3 maps to canonical
2: the merge is not transitively closed and the region keeps two distinct
canonical labels. -/
theorem ccl_merge_not_transitively_closed :
    ccl imgC2 .FOUR 1 =
      ([0, 0, 0, 0, 0, 0,
        0, 2, 0, 2, 0, 3,
        0, 2, 0, 2, 2, 2,
        0, 2, 2, 2, 0, 0], 4) ∧
    (ccl imgC2 .FOUR 1).1.getD (to_1d 5 1 6) 0 = 3 ∧
    (ccl imgC2 .FOUR 1).1.getD (to_1d 3 1 6) 0 = 2 := by
  decide

/-- C3: refuted on the code — evaluation at a failing input.  After one
`set_pixel` on a fresh 1×1 image (maintenance flag on), the histogram still
maps black to 2 although the buffer holds no black pixel (the constructor
seeds black with the byte capacity `3·w·h` instead of the pixel count); and
after a second write the usage map still maps channel value 3 to 1 although
no slot holds 3 (`remove_from_hist` iterates `R_CH..B_CH`, never
decrementing the blue channel). -/
theorem set_pixel_histogram_inexact :
    imgC3.keep_histogram_updated = true ∧
    imgC3.histogram = [([0, 0, 0], 2), ([1, 2, 3], 1)] ∧
    count_pixel_occurrences imgC3 [0, 0, 0] = 0 ∧
    imgC3b.rgb_components_used = [(3, 1), (4, 1), (5, 1), (6, 1)] ∧
    count_channel_slots imgC3b 3 = 0 := by
  decide

/-- C4: refuted on the code — evaluation at a failing input.
`set_pixel` never consults `keep_histogram_updated` (the flag is written in
the sources but read nowhere), so with the flag `false` a write still
changes both the histogram and the usage map. -/
theorem set_pixel_ignores_histogram_flag :
    imgC4pre.keep_histogram_updated = false ∧
    imgC4pre.histogram = [([0, 0, 0], 3)] ∧
    imgC4pre.rgb_components_used = [] ∧
    imgC4.histogram = [([0, 0, 0], 2), ([1, 2, 3], 1)] ∧
    imgC4.rgb_components_used = [(1, 1), (2, 1), (3, 1)] ∧
    imgC4.histogram ≠ imgC4pre.histogram ∧
    imgC4.rgb_components_used ≠ imgC4pre.rgb_components_used := by
  decide

/-- C5: refuted on the code — evaluation at a failing input.  On the 1×2
image `imgC5` the neighbor coordinate `(1,0)` lies outside the source
rectangle `[0,1)×[0,2)`, yet `get_pixel_as_float` returns `(200,0,0)` — the
image's pixel at `(0,1)` — because `get_pixel_by_coord` bounds-checks only
the linear index `3·(x + y·w)`, which wraps an overflowing `x` onto the
next row, instead of checking `x` and `y` against the rectangle. -/
theorem bilinear_out_of_range_wraps :
    imgC5.width = 1 ∧ imgC5.height = 2 ∧
    get_pixel_as_float imgC5 1 0 = (200, 0, 0) ∧
    get_pixel_as_float imgC5 0 1 = (200, 0, 0) ∧
    (200, 0, 0) ≠ ((0 : Nat), (0 : Nat), (0 : Nat)) := by
  decide

/-- C6: the claim as frozen is wrong about the order of the two checks —
`resize` tests target-equals-source BEFORE the zero check, so a
zero-dimension target that matches a (degenerate) source's dimensions is
answered with `Ok(copy)` rather than the invalid-argument error:
counterexample at source `new 0 5` with target `(0,5)`. -/
theorem resize_zero_target_equal_dims_ok :
    resize (PpmImage.new 0 5) 0 5 .none = .ok (PpmImage.new 0 5) := by
  rfl

/-- C6 (amended): `resize` returns the invalid-argument error whenever a
target dimension is zero AND the target differs from the source dimensions;
when the target equals the source dimensions (checked first) it returns an
identical copy of the source without resampling. -/
theorem resize_identity_before_zero_check (image : PpmImage)
    (width height : Nat) (algo : Option ResizeAlgorithm) :
    (image.width = width ∧ image.height = height →
      resize image width height algo = .ok image) ∧
    ((width = 0 ∨ height = 0) →
      ¬(image.width = width ∧ image.height = height) →
      resize image width height algo =
        .error "The image cannot have height or width be zero.") := by
  constructor
  · intro h
    simp [resize, h]
  · intro hz hne
    simp [resize, hne, hz]

/-- Closed instance of `resize_identity_before_zero_check` at concrete
inputs: a 2×2 source copied at target `(2,2)` and rejected at `(0,5)`. -/
theorem resize_identity_before_zero_check_witness :
    resize (PpmImage.new 2 2) 2 2 .none = .ok (PpmImage.new 2 2) ∧
    resize (PpmImage.new 2 2) 0 5 .none =
      .error "The image cannot have height or width be zero." :=
  ⟨(resize_identity_before_zero_check (PpmImage.new 2 2) 2 2 .none).1
      (by decide),
   (resize_identity_before_zero_check (PpmImage.new 2 2) 0 5 .none).2
      (by decide) (by decide)⟩

/-- C9: confirmed.  For dimensions `w, h ≥ 1`, `PpmImage::new` yields a
buffer of exactly `3·w·h` zero bytes, a `max_value()` of 255 (empty usage
map), and black as the dominant/background color. -/
theorem ppm_new_black_defaults (w h : Nat) (_hw : 1 ≤ w) (_hh : 1 ≤ h) :
    (PpmImage.new w h).pixels = List.replicate (3 * (w * h)) 0 ∧
    (PpmImage.new w h).max_value = 255 ∧
    (PpmImage.new w h).get_background = BLACK := by
  refine ⟨?_, rfl, rfl⟩
  simp [PpmImage.new, PIXEL_SIZE, Nat.mul_comm h w]

/-- Closed instance of `ppm_new_black_defaults` at `w = h = 2`. -/
theorem ppm_new_black_defaults_witness :
    (1 ≤ 2 ∧ 1 ≤ 2) ∧
    (PpmImage.new 2 2).pixels = List.replicate (3 * (2 * 2)) 0 ∧
    (PpmImage.new 2 2).max_value = 255 ∧
    (PpmImage.new 2 2).get_background = BLACK :=
  ⟨by decide, ppm_new_black_defaults 2 2 (by decide) (by decide)⟩

/-- Getting an element below both lengths from equal-getD lists; helper for
the `PartialEq` characterization. -/
theorem list_eq_of_len_getD (l m : List Nat) (hlen : l.length = m.length)
    (h : ∀ i < l.length, l.getD i 0 = m.getD i 0) : l = m := by
  induction l generalizing m with
  | nil => cases m with
    | nil => rfl
    | cons b t => simp at hlen
  | cons a t ih =>
    cases m with
    | nil => simp at hlen
    | cons b s =>
      have h0 := h 0 (by simp)
      simp only [List.getD_cons_zero] at h0
      subst h0
      have : t = s := by
        refine ih s (by simpa using hlen) ?_
        intro i hi
        have := h (i + 1) (by simpa using Nat.succ_lt_succ hi)
        simpa using this
      rw [this]

/-- C10: confirmed.  The source `PartialEq` for `PpmImage` compares only
header height, header width, buffer length and buffer contents, so two
images are equal exactly when their widths, heights and byte buffers agree;
`max_value`, the PPM type and the statistics maps never enter. -/
theorem ppm_eq_iff_dims_and_pixels (a b : PpmImage) :
    ppmImageEq a b = true ↔
      a.header.width = b.header.width ∧ a.header.height = b.header.height ∧
        a.pixels = b.pixels := by
  unfold ppmImageEq ppmHeaderEq
  constructor
  · intro h
    by_cases hh : (a.header.height == b.header.height &&
        a.header.width == b.header.width) = true
    · rw [if_pos hh] at h
      have hh' := hh
      rw [Bool.and_eq_true, beq_iff_eq, beq_iff_eq] at hh'
      by_cases hl : (a.pixels.length == b.pixels.length) = true
      · rw [if_pos hl] at h
        rw [beq_iff_eq] at hl
        refine ⟨hh'.2, hh'.1, ?_⟩
        refine list_eq_of_len_getD _ _ hl ?_
        intro i hi
        have := List.all_eq_true.mp h i (List.mem_range.mpr hi)
        exact beq_iff_eq.mp this
      · rw [if_neg hl] at h
        exact absurd h (by simp)
    · rw [if_neg hh] at h
      exact absurd h (by simp)
  · rintro ⟨hw, hh, hp⟩
    have hhdr : (a.header.height == b.header.height &&
        a.header.width == b.header.width) = true := by
      rw [Bool.and_eq_true, beq_iff_eq, beq_iff_eq]
      exact ⟨hh, hw⟩
    rw [if_pos hhdr]
    rw [if_pos (by rw [beq_iff_eq, hp])]
    refine List.all_eq_true.mpr ?_
    intro i _
    rw [hp]
    exact beq_self_eq_true _

/- Helper lemmas about the pixel buffer written by the tonal-transform
loops. -/

theorem pixels_remove_from_hist (img : PpmImage) (rgb : PixelBytes) :
    (img.remove_from_hist rgb).pixels = img.pixels := by
  unfold PpmImage.remove_from_hist
  cases mapGet img.histogram rgb <;> rfl

theorem pixels_add_to_hist (img : PpmImage) (rgb : PixelBytes) :
    (img.add_to_hist rgb).pixels = img.pixels := by
  unfold PpmImage.add_to_hist
  cases mapGet img.histogram rgb
  · by_cases h : rgb.length = PIXEL_SIZE
    · rw [if_pos h]
    · rw [if_neg h]
  · rfl

theorem pixels_set_pixel (img : PpmImage) (index : Nat) (p : PixelBytes) :
    (img.set_pixel index p).pixels =
      ((img.pixels.set (index + 0) (p.getD 0 0)).set (index + 1)
        (p.getD 1 0)).set (index + 2) (p.getD 2 0) := by
  simp [PpmImage.set_pixel, pixels_add_to_hist, pixels_remove_from_hist,
    R_CH, G_CH, B_CH]

/-- The buffer left by `n` sequential three-byte writes, write `i` landing
at byte offset `3·i` (the shape of the tonal-transform `set_pixel` loops,
whose running `pixel_index` advances by `PIXEL_SIZE` per write). -/
def writeSeq (l : List Nat) (g : Nat → PixelBytes) : Nat → List Nat
  | 0 => l
  | n + 1 =>
    (((writeSeq l g n).set (3 * n) ((g n).getD 0 0)).set (3 * n + 1)
      ((g n).getD 1 0)).set (3 * n + 2) ((g n).getD 2 0)

theorem writeSeq_length (l : List Nat) (g : Nat → PixelBytes) (n : Nat) :
    (writeSeq l g n).length = l.length := by
  induction n with
  | zero => rfl
  | succ n ih => simp [writeSeq, ih]

theorem foldl_set_pixel_pixels (g : Nat → PixelBytes) (init : PpmImage)
    (n : Nat) :
    ((List.range n).foldl
      (fun acc i => acc.set_pixel (PIXEL_SIZE * i) (g i)) init).pixels =
      writeSeq init.pixels g n := by
  induction n with
  | zero => rfl
  | succ n ih =>
    rw [List.range_succ, List.foldl_append]
    simp only [List.foldl_cons, List.foldl_nil]
    rw [pixels_set_pixel, ih]
    simp [writeSeq, PIXEL_SIZE, Nat.mul_comm]

theorem getD_set_ne (l : List Nat) (i j a : Nat) (h : i ≠ j) :
    (l.set i a).getD j 0 = l.getD j 0 := by
  rcases Nat.lt_or_ge j l.length with hj | hj
  · rw [List.getD_eq_getElem _ _ (by simpa using hj),
      List.getD_eq_getElem _ _ hj]
    exact List.getElem_set_ne h _
  · rw [List.getD_eq_default _ _ (by simpa using hj),
      List.getD_eq_default _ _ hj]

theorem getD_set_self (l : List Nat) (i a : Nat) (h : i < l.length) :
    (l.set i a).getD i 0 = a := by
  rw [List.getD_eq_getElem _ _ (by simpa using h)]
  exact List.getElem_set_self _

theorem writeSeq_getD (l : List Nat) (g : Nat → PixelBytes) (n j : Nat)
    (hj : j < l.length) :
    (writeSeq l g n).getD j 0 =
      if j < 3 * n then (g (j / 3)).getD (j % 3) 0 else l.getD j 0 := by
  induction n with
  | zero => simp [writeSeq]
  | succ n ih =>
    have hwl : (writeSeq l g n).length = l.length := writeSeq_length l g n
    rw [writeSeq]
    rcases Nat.lt_trichotomy j (3 * n) with hlt | heq | hgt
    · rw [getD_set_ne _ _ _ _ (by omega), getD_set_ne _ _ _ _ (by omega),
        getD_set_ne _ _ _ _ (by omega), ih]
      rw [if_pos hlt, if_pos (by omega)]
    · subst heq
      rw [getD_set_ne _ _ _ _ (by omega), getD_set_ne _ _ _ _ (by omega)]
      rw [getD_set_self _ _ _ (by simpa [hwl] using hj)]
      rw [if_pos (by omega)]
      have h1 : 3 * n / 3 = n := by omega
      have h2 : 3 * n % 3 = 0 := by omega
      rw [h1, h2]
    · rcases (by omega : j = 3 * n + 1 ∨ j = 3 * n + 2 ∨ 3 * n + 2 < j)
        with h1 | h2 | h3
      · subst h1
        rw [getD_set_ne _ _ _ _ (by omega)]
        rw [getD_set_self _ _ _ (by simpa [hwl] using hj)]
        rw [if_pos (by omega)]
        have e1 : (3 * n + 1) / 3 = n := by omega
        have e2 : (3 * n + 1) % 3 = 1 := by omega
        rw [e1, e2]
      · subst h2
        rw [getD_set_self _ _ _ (by simpa [hwl] using hj)]
        rw [if_pos (by omega)]
        have e1 : (3 * n + 2) / 3 = n := by omega
        have e2 : (3 * n + 2) % 3 = 2 := by omega
        rw [e1, e2]
      · rw [getD_set_ne _ _ _ _ (by omega), getD_set_ne _ _ _ _ (by omega),
          getD_set_ne _ _ _ _ (by omega), ih]
        rw [if_neg (by omega), if_neg (by omega)]

/-- The pixel buffer of `transform_pixels`: the `w·h` sequential writes of
the per-pixel transformed bytes over the all-zero buffer of the fresh
output image. -/
theorem transform_pixels_pixels (img : PpmImage) (f : Nat → Nat) :
    (transform_pixels img f).pixels =
      writeSeq (List.replicate (PIXEL_SIZE * (img.height * img.width)) 0)
        (fun i =>
          [f ((img.get_pixel_at i).getD R_CH 0),
           f ((img.get_pixel_at i).getD G_CH 0),
           f ((img.get_pixel_at i).getD B_CH 0)]) (img.width * img.height) := by
  have h := foldl_set_pixel_pixels
    (fun i =>
      [f ((img.get_pixel_at i).getD R_CH 0),
       f ((img.get_pixel_at i).getD G_CH 0),
       f ((img.get_pixel_at i).getD B_CH 0)])
    (PpmImage.new img.width img.height) (img.width * img.height)
  exact h

/-- When the per-byte function fixes every byte of the source, the
transform loop reproduces the source buffer exactly. -/
theorem transform_pixels_id (img : PpmImage) (f : Nat → Nat)
    (hlen : img.pixels.length = 3 * (img.width * img.height))
    (hf : ∀ b ∈ img.pixels, f b = b) :
    (transform_pixels img f).pixels = img.pixels := by
  rw [transform_pixels_pixels]
  have hrep : (List.replicate (PIXEL_SIZE * (img.height * img.width))
      (0 : Nat)).length = 3 * (img.width * img.height) := by
    simp [PIXEL_SIZE, Nat.mul_comm]
  apply list_eq_of_len_getD
  · rw [writeSeq_length, hrep, hlen]
  · intro j hj
    rw [writeSeq_length, hrep] at hj
    rw [writeSeq_getD _ _ _ _ (by rw [hrep]; exact hj), if_pos hj]
    have hjl : j < img.pixels.length := by rw [hlen]; exact hj
    have hmem : img.pixels.getD j 0 ∈ img.pixels := by
      rw [List.getD_eq_getElem _ _ hjl]
      exact List.getElem_mem hjl
    rcases (by omega : j % 3 = 0 ∨ j % 3 = 1 ∨ j % 3 = 2) with h0 | h1 | h2
    · rw [h0]
      show f ((img.get_pixel_at (j / 3)).getD R_CH 0) = img.pixels.getD j 0
      simp only [PpmImage.get_pixel_at, PpmImage.get_bytes_at, R_CH]
      simp only [List.getD_cons_zero]
      rw [(by simp only [PIXEL_SIZE]; omega : j / 3 * PIXEL_SIZE = j)]
      exact hf _ hmem
    · rw [h1]
      show f ((img.get_pixel_at (j / 3)).getD G_CH 0) = img.pixels.getD j 0
      simp only [PpmImage.get_pixel_at, PpmImage.get_bytes_at, G_CH]
      simp only [List.getD_cons_succ, List.getD_cons_zero]
      rw [(by simp only [PIXEL_SIZE]; omega : j / 3 * PIXEL_SIZE + 1 = j)]
      exact hf _ hmem
    · rw [h2]
      show f ((img.get_pixel_at (j / 3)).getD B_CH 0) = img.pixels.getD j 0
      simp only [PpmImage.get_pixel_at, PpmImage.get_bytes_at, B_CH]
      simp only [List.getD_cons_succ, List.getD_cons_zero]
      rw [(by simp only [PIXEL_SIZE]; omega : j / 3 * PIXEL_SIZE + 2 = j)]
      exact hf _ hmem

/-- Rounding a natural number (as a real) is the identity. -/
theorem rustRoundR_natCast (p : Nat) : rustRoundR (p : ℝ) = p := by
  unfold rustRoundR
  rw [if_pos (by positivity)]
  have : ⌊(p : ℝ) + 1 / 2⌋ = (p : ℤ) := by
    rw [Int.floor_eq_iff]
    constructor
    · push_cast
      linarith
    · push_cast
      linarith
  rw [this]

/-- Gamma correction 1 fixes every byte value up to 255. -/
theorem gamma_safe_one_id (p : Nat) (hp : p ≤ 255) (c : ℝ) :
    gamma_transform_safe p 1 c = p := by
  unfold gamma_transform_safe
  have h1 : (255 : ℝ) * ((p : ℝ) / 255) ^ (1 : ℝ) = (p : ℝ) := by
    rw [Real.rpow_one]
    field_simp
  rw [h1]
  have hple : (p : ℝ) ≤ 255 := by exact_mod_cast hp
  rw [if_neg (not_lt.mpr hple)]
  rw [rustRoundR_natCast, Int.toNat_natCast]

/-- C8: confirmed.  The output of `gamma_transform` never depends on the
optional `c` (which `gamma_transform_safe` accepts but ignores), and at
`gamma = 1.0` the transform is the per-pixel identity: the output buffer
equals the input buffer exactly.  The hypotheses are the Image Store
invariants (buffer length `3·w·h`, bytes are `u8` values). -/
theorem gamma_transform_identity_and_c_blind (img : PpmImage)
    (hlen : img.pixels.length = 3 * (img.width * img.height))
    (hbytes : ∀ b ∈ img.pixels, b ≤ 255) :
    (∀ (gamma : ℝ) (c c' : Option ℝ),
      gamma_transform img gamma c = gamma_transform img gamma c') ∧
    ∀ c : Option ℝ,
      (gamma_transform img 1 c).map PpmImage.pixels = .ok img.pixels := by
  constructor
  · intro gamma c c'
    rfl
  · intro c
    show Except.ok (transform_pixels img
      (fun p => gamma_transform_safe p (1 / 1) (c.getD 1))).pixels =
      Except.ok img.pixels
    congr 1
    apply transform_pixels_id img _ hlen
    intro b hb
    rw [(by norm_num : (1 : ℝ) / 1 = 1)]
    exact gamma_safe_one_id b (hbytes b hb) _

/-- Closed instance of `gamma_transform_identity_and_c_blind` on a concrete
1×1 image with one gray pixel. -/
theorem gamma_transform_identity_and_c_blind_witness :
    ((PpmImage.new 1 1).set_pixel 0 [7, 8, 9]).pixels.length =
      3 * (((PpmImage.new 1 1).set_pixel 0 [7, 8, 9]).width *
        ((PpmImage.new 1 1).set_pixel 0 [7, 8, 9]).height) ∧
    (∀ b ∈ ((PpmImage.new 1 1).set_pixel 0 [7, 8, 9]).pixels, b ≤ 255) ∧
    (gamma_transform ((PpmImage.new 1 1).set_pixel 0 [7, 8, 9]) 1
        .none).map PpmImage.pixels =
      .ok ((PpmImage.new 1 1).set_pixel 0 [7, 8, 9]).pixels :=
  ⟨by decide, by decide,
    (gamma_transform_identity_and_c_blind _ (by decide) (by decide)).2 .none⟩

/- The 2×2 end-to-end log-transform scenario. -/

/-- The spec's 2×2 scenario image, raster pixels
`[[0,0,0],[255,255,255],[128,128,128],[64,64,64]]`, built through the
public constructor and pixel writes. -/
def scenarioC7 : PpmImage :=
  ((((PpmImage.new 2 2).set_pixel_by_coord 0 0 [0, 0, 0]).set_pixel_by_coord
      1 0 [255, 255, 255]).set_pixel_by_coord 0 1
      [128, 128, 128]).set_pixel_by_coord 1 1 [64, 64, 64]

/-- A pixel of the output of the transform loop, in terms of the source
pixel and the per-byte function. -/
theorem transform_pixels_get_pixel_at (img : PpmImage) (f : Nat → Nat)
    (i : Nat) (hi : i < img.width * img.height) :
    (transform_pixels img f).get_pixel_at i =
      [f ((img.get_pixel_at i).getD R_CH 0),
       f ((img.get_pixel_at i).getD G_CH 0),
       f ((img.get_pixel_at i).getD B_CH 0)] := by
  have h3 : 3 * (i + 1) ≤ 3 * (img.width * img.height) :=
    Nat.mul_le_mul_left 3 hi
  have hrepl : (List.replicate (PIXEL_SIZE * (img.height * img.width))
      (0 : Nat)).length = 3 * (img.width * img.height) := by
    simp [PIXEL_SIZE, Nat.mul_comm]
  show PpmImage.get_bytes_at _ _ = _
  unfold PpmImage.get_bytes_at
  rw [transform_pixels_pixels]
  rw [writeSeq_getD _ _ _ _ (by rw [hrepl]; simp only [PIXEL_SIZE]; omega)]
  rw [writeSeq_getD _ _ _ _ (by rw [hrepl]; simp only [PIXEL_SIZE]; omega)]
  rw [writeSeq_getD _ _ _ _ (by rw [hrepl]; simp only [PIXEL_SIZE]; omega)]
  rw [if_pos (by simp only [PIXEL_SIZE]; omega),
    if_pos (by simp only [PIXEL_SIZE]; omega),
    if_pos (by simp only [PIXEL_SIZE]; omega)]
  rw [(by simp only [PIXEL_SIZE]; omega : i * PIXEL_SIZE / 3 = i),
    (by simp only [PIXEL_SIZE]; omega : i * PIXEL_SIZE % 3 = 0),
    (by simp only [PIXEL_SIZE]; omega : (i * PIXEL_SIZE + 1) / 3 = i),
    (by simp only [PIXEL_SIZE]; omega : (i * PIXEL_SIZE + 1) % 3 = 1),
    (by simp only [PIXEL_SIZE]; omega : (i * PIXEL_SIZE + 2) / 3 = i),
    (by simp only [PIXEL_SIZE]; omega : (i * PIXEL_SIZE + 2) % 3 = 2)]
  rfl

/-- Value of `log_transform_safe` at the brightest input under the default
`c` for a used-channel maximum of 255. -/
theorem log_safe_255 :
    log_transform_safe 255 (255 / Real.logb 10 256) 10 = 255 := by
  have hL : Real.logb 10 256 ≠ 0 :=
    ne_of_gt (Real.logb_pos (by norm_num) (by norm_num))
  simp only [log_transform_safe]
  have hb : Real.logb 10 (((255 : Nat) : ℝ) + 1) = Real.logb 10 256 := by
    norm_num
  rw [hb, div_mul_cancel₀ _ hL]
  rw [if_neg (lt_irrefl _)]
  rw [(by norm_num : (255 : ℝ) = ((255 : Nat) : ℝ)), rustRoundR_natCast,
    Int.toNat_natCast]

/-- Value of `log_transform_safe` at input 0, for any `c`:
`c · log₁₀(1) = 0`. -/
theorem log_safe_0 (c : ℝ) : log_transform_safe 0 c 10 = 0 := by
  simp only [log_transform_safe]
  have hb : Real.logb 10 (((0 : Nat) : ℝ) + 1) = 0 := by
    norm_num
  rw [hb, mul_zero]
  rw [if_neg (by norm_num)]
  rw [(by norm_num : (0 : ℝ) = ((0 : Nat) : ℝ)), rustRoundR_natCast,
    Int.toNat_natCast]

/-- Value of `log_transform_safe` when `c = 0`: always 0. -/
theorem log_safe_c_zero (p : Nat) (b : ℝ) : log_transform_safe p 0 b = 0 := by
  simp only [log_transform_safe]
  rw [zero_mul]
  rw [if_neg (by norm_num)]
  rw [(by norm_num : (0 : ℝ) = ((0 : Nat) : ℝ)), rustRoundR_natCast,
    Int.toNat_natCast]

theorem scenarioC7_pixel1 : scenarioC7.get_pixel_at 1 = [255, 255, 255] := by
  decide

theorem scenarioC7_pixel0 : scenarioC7.get_pixel_at 0 = [0, 0, 0] := by
  decide

theorem scenarioC7_max_value : scenarioC7.max_value = 255 := by
  decide

/-- C7 (amended): with neither `c` nor `base` supplied, `log_transform`
uses base 10 and `c = 255 / log₁₀(1 + m)` where `m` is the image's
`max_value()` accessor value (the greatest channel value in use, 255 for an
empty usage map) — not the header's declared maximum sample value; on the
2×2 scenario image this maps the 255 pixel to 255 and the 0 pixel to 0. -/
theorem log_transform_default_base_and_scenario :
    (∀ img : PpmImage, log_transform img .none .none =
      log_transform img
        (.some (255 / Real.logb 10 (1 + (img.max_value : ℝ)))) (.some 10)) ∧
    (log_transform scenarioC7 .none .none).map
        (fun t => (t.get_pixel_at 1, t.get_pixel_at 0)) =
      .ok ([255, 255, 255], [0, 0, 0]) := by
  constructor
  · intro img
    rfl
  · show Except.ok
      ((transform_pixels scenarioC7 (fun p => log_transform_safe p
          (255 / Real.logb 10 (1 + (scenarioC7.max_value : ℝ))) 10)).get_pixel_at 1,
        (transform_pixels scenarioC7 (fun p => log_transform_safe p
          (255 / Real.logb 10 (1 + (scenarioC7.max_value : ℝ))) 10)).get_pixel_at 0) =
      Except.ok ([255, 255, 255], [0, 0, 0])
    rw [transform_pixels_get_pixel_at _ _ 1 (by decide),
      transform_pixels_get_pixel_at _ _ 0 (by decide)]
    rw [scenarioC7_pixel1, scenarioC7_pixel0, scenarioC7_max_value]
    have hc : (255 : ℝ) / Real.logb 10 (1 + ((255 : Nat) : ℝ)) =
        255 / Real.logb 10 256 := by norm_num
    rw [hc]
    simp only [R_CH, G_CH, B_CH, List.getD_cons_zero, List.getD_cons_succ]
    rw [log_safe_255, log_safe_0]

/-- C7: the frozen claim's formula is refuted on the code — the default `c`
is computed from the `max_value()` accessor, not from the declared
(header) maximum sample value.  On the scenario image the header maximum is
0 (never hinted), so the claimed formula `255 / log₁₀(1 + declared)` has a
zero denominator (`log₁₀ 1 = 0`, hence the value 0 under the embedding's
division), and supplying it as `c` yields an all-zero output where the
default run produces 255s. -/
theorem log_transform_ignores_declared_max :
    scenarioC7.header.max_value = 0 ∧
    scenarioC7.max_value = 255 ∧
    Real.logb 10 (1 + (scenarioC7.header.max_value : ℝ)) = 0 ∧
    log_transform scenarioC7 .none .none ≠
      log_transform scenarioC7
        (.some (255 / Real.logb 10 (1 + (scenarioC7.header.max_value : ℝ))))
        (.some 10) := by
  have hhdr : scenarioC7.header.max_value = 0 := by decide
  have hlb : Real.logb 10 (1 + (scenarioC7.header.max_value : ℝ)) = 0 := by
    rw [hhdr]
    norm_num
  refine ⟨hhdr, scenarioC7_max_value, hlb, ?_⟩
  intro h
  have h1 := congrArg (Except.map (fun t : PpmImage => t.get_pixel_at 1)) h
  have hleft : (log_transform scenarioC7 .none .none).map
      (fun t : PpmImage => t.get_pixel_at 1) = .ok [255, 255, 255] := by
    show Except.ok ((transform_pixels scenarioC7 (fun p => log_transform_safe p
        (255 / Real.logb 10 (1 + (scenarioC7.max_value : ℝ))) 10)).get_pixel_at 1) =
      Except.ok [255, 255, 255]
    rw [transform_pixels_get_pixel_at _ _ 1 (by decide)]
    rw [scenarioC7_pixel1, scenarioC7_max_value]
    have hc : (255 : ℝ) / Real.logb 10 (1 + ((255 : Nat) : ℝ)) =
        255 / Real.logb 10 256 := by norm_num
    rw [hc]
    simp only [R_CH, G_CH, B_CH, List.getD_cons_zero, List.getD_cons_succ]
    rw [log_safe_255]
  have hright : (log_transform scenarioC7
      (.some (255 / Real.logb 10 (1 + (scenarioC7.header.max_value : ℝ))))
      (.some 10)).map (fun t : PpmImage => t.get_pixel_at 1) =
      .ok [0, 0, 0] := by
    show Except.ok ((transform_pixels scenarioC7 (fun p => log_transform_safe p
        (255 / Real.logb 10 (1 + (scenarioC7.header.max_value : ℝ))) 10)).get_pixel_at 1) =
      Except.ok [0, 0, 0]
    rw [transform_pixels_get_pixel_at _ _ 1 (by decide)]
    have hz : (255 : ℝ) / Real.logb 10 (1 + (scenarioC7.header.max_value : ℝ)) = 0 := by
      rw [hlb, div_zero]
    rw [hz]
    simp only [log_safe_c_zero]
  rw [hleft, hright] at h1
  simp at h1

end ImageViewer
